import Mathlib

/-!
Verification of the snakes-and-ladders simulation engine.

The Rust sources (`src/main.rs`, `src/dice.rs`) are embedded shallowly:

* `Board` keeps the route map as an association list (the Rust `HashMap`
  with unique keys), looked up through `Board.get`.
* `Sim` carries the position and every statistics counter of the Rust
  `Sim` struct; the trait-object die source is replaced by an explicit
  list of upcoming die values, consumed front first (the scripted
  `MockDie` pops its queue from the right, i.e. in reverse-insertion
  order, which is exactly front-first consumption of the reversed list).
* The `while` loop of `follow_routes` is given explicit fuel, since the
  Rust loop does not terminate on cyclic route graphs; theorems about
  chains carry a `hops.length ≤ fuel` hypothesis.
* The `turn` loop recurses structurally on the remaining die values; an
  exhausted die source (a Rust panic) is modelled as `none`.
-/

namespace SnakesLadders

/-- The die size constant from `dice.rs` (`pub const DIE_SIZE: usize = 6`). -/
def DIE_SIZE : Nat := 6

/-- The board: winning square `size` and the snake/ladder routes
(source, destination), from `struct Board` in `main.rs`. -/
structure Board where
  size : Nat
  routes : List (Nat × Nat)
deriving DecidableEq

/-- Lookup in the route map, the embedding of `board.routes.get(&k)`. -/
def Board.get (b : Board) (k : Nat) : Option Nat :=
  (b.routes.find? (fun p => p.1 == k)).map (fun p => p.2)

/-- The error type `BadRouteError` of `main.rs`. -/
inductive BadRouteError where
  | BadRoute (msg : String)
deriving DecidableEq

/-- Message built by `Board::new` for an illegal route start. -/
def badStartMsg (f : Nat) : String :=
  "Illegal snake/ladder start position: " ++ toString f

/-- Message built by `Board::new` for an illegal route end. -/
def badEndMsg (t : Nat) : String :=
  "Illegal snake/ladder end position: " ++ toString t

/-- Message built by `Board::new` for a self-loop route. -/
def badSelfMsg (f : Nat) : String :=
  "Snake or ladder links to itself on square " ++ toString f

/-- The validation loop of `Board::new`: the first offending route (in
iteration order) yields an error, in the order of the three checks of the
Rust source. -/
def checkRoutes (size : Nat) : List (Nat × Nat) → Option BadRouteError
  | [] => none
  | (f, t) :: rest =>
    if f = 0 ∨ size ≤ f then some (BadRouteError.BadRoute (badStartMsg f))
    else if size < t then some (BadRouteError.BadRoute (badEndMsg t))
    else if f = t then some (BadRouteError.BadRoute (badSelfMsg f))
    else checkRoutes size rest

/-- `Board::new(size, routes)`: validate every route, then return the board. -/
def Board.new (size : Nat) (routes : List (Nat × Nat)) : Except BadRouteError Board :=
  match checkRoutes size routes with
  | some e => Except.error e
  | none => Except.ok { size := size, routes := routes }

/-- `board.routes.get(&i).unwrap_or(&i)` from `calc_lucky_spaces`. -/
def routeOr (b : Board) (i : Nat) : Nat := (b.get i).getD i

/-- The near-miss check of `calc_lucky_spaces`: some neighbour at offset
-2, -1, 1 or 2 (offsets landing at 0 or below are skipped) has a route
leading strictly downwards. -/
def nearMiss (b : Board) (i : Nat) : Bool :=
  ([-2, -1, 1, 2] : List Int).any (fun delta =>
    let other_i : Int := (i : Int) + delta
    if other_i ≤ 0 then false
    else
      let oi : Nat := other_i.toNat
      decide (routeOr b oi < oi))

/-- One iteration of the `for i in 0..board.size` loop of
`calc_lucky_spaces`: classify square `i` by its own route, then apply the
near-miss check. -/
def luckyStep (b : Board) (acc : Finset Nat × Finset Nat) (i : Nat) :
    Finset Nat × Finset Nat :=
  let acc1 : Finset Nat × Finset Nat :=
    if i < routeOr b i then (insert i acc.1, acc.2)
    else if routeOr b i < i then (acc.1, insert i acc.2)
    else acc
  if nearMiss b i then (insert i acc1.1, acc1.2) else acc1

/-- `calc_lucky_spaces(board)`: returns `(lucky_spaces, unlucky_spaces)`;
finally the winning space is inserted into the lucky set. -/
def calc_lucky_spaces (b : Board) : Finset Nat × Finset Nat :=
  let acc := (List.range b.size).foldl (luckyStep b) (∅, ∅)
  (insert b.size acc.1, acc.2)

/-- The mutable state of `struct Sim` (the die source is supplied
separately as a list of upcoming values). -/
structure Sim where
  board : Board
  position : Nat
  lucky_spaces : Finset Nat
  unlucky_spaces : Finset Nat
  turn_count : Nat
  roll_count : Nat
  climb_count : Nat
  slide_count : Nat
  climb_distance : Nat
  slide_distance : Nat
  biggest_climb : Nat
  biggest_slide : Nat
  longest_turn : List Nat
  lucky_rolls : Nat
  unlucky_rolls : Nat
deriving DecidableEq

/-- `Sim::new(board, rng)`: zeroed counters, position 0, pre-computed
luck sets. -/
def Sim.new (board : Board) : Sim :=
  let lu := calc_lucky_spaces board
  { board := board
    position := 0
    lucky_spaces := lu.1
    unlucky_spaces := lu.2
    turn_count := 0
    roll_count := 0
    climb_count := 0
    slide_count := 0
    climb_distance := 0
    slide_distance := 0
    biggest_climb := 0
    biggest_slide := 0
    longest_turn := []
    lucky_rolls := 0
    unlucky_rolls := 0 }

/-- `Sim::has_won`: `self.position == self.board.size`. -/
def Sim.has_won (s : Sim) : Bool := s.position == s.board.size

/-- The struct `RollResult` of `main.rs`. -/
structure RollResult where
  die_value : Nat
  climb_distance : Nat
  slide_distance : Nat
deriving DecidableEq

/-- `Sim::follow_routes` with explicit fuel: follow the route out of the
current position while one exists, counting every hop as a climb (route
target above the source) or a slide (at or below it). -/
def follow_routes : Nat → Sim → Sim
  | 0, s => s
  | fuel + 1, s =>
    match s.board.get s.position with
    | none => s
    | some p =>
      if s.position < p then
        follow_routes fuel
          { s with
            position := p
            climb_count := s.climb_count + 1
            climb_distance := s.climb_distance + (p - s.position) }
      else
        follow_routes fuel
          { s with
            position := p
            slide_count := s.slide_count + 1
            slide_distance := s.slide_distance + (s.position - p) }

/-- `Sim::roll_resolve(die_value)`: count the roll; on an overroll return
a zero result with no other state change; otherwise move to the target,
follow routes, compute the net climb/slide of this roll, and classify the
luck of the ORIGINAL target square (unlucky first, then lucky). -/
def roll_resolve (fuel : Nat) (s : Sim) (die_value : Nat) : Sim × RollResult :=
  let s1 := { s with roll_count := s.roll_count + 1 }
  let rolled_position := s1.position + die_value
  if s1.board.size < rolled_position then
    (s1, { die_value := die_value, climb_distance := 0, slide_distance := 0 })
  else
    let s2 := follow_routes fuel { s1 with position := rolled_position }
    let cs : Nat × Nat :=
      if rolled_position < s2.position then (s2.position - rolled_position, 0)
      else (0, rolled_position - s2.position)
    let s3 :=
      if rolled_position ∈ s2.unlucky_spaces then
        { s2 with unlucky_rolls := s2.unlucky_rolls + 1 }
      else if rolled_position ∈ s2.lucky_spaces then
        { s2 with lucky_rolls := s2.lucky_rolls + 1 }
      else s2
    (s3, { die_value := die_value, climb_distance := cs.1, slide_distance := cs.2 })

/-- The strict `<` of Rust `Vec<usize>` (lexicographic, a proper prefix
is smaller), used by `turn` on `die_rolls > self.longest_turn`. -/
def vecLt : List Nat → List Nat → Bool
  | [], [] => false
  | [], _ :: _ => true
  | _ :: _, [] => false
  | a :: l1, b :: l2 =>
    if a < b then true else if b < a then false else vecLt l1 l2

/-- The `while !self.has_won()` loop inside `Sim::turn`: roll, accumulate
this turn's climb/slide and die values, stop when the die shows less than
`DIE_SIZE`. Returns the state, the remaining die values and the three
per-turn accumulators; an exhausted die source is `none` (Rust panics). -/
def turnLoop (fuel : Nat) (s : Sim) (dice : List Nat)
    (turn_climb turn_slide : Nat) (die_rolls : List Nat) :
    Option (Sim × List Nat × Nat × Nat × List Nat) :=
  if s.has_won then some (s, dice, turn_climb, turn_slide, die_rolls)
  else
    match dice with
    | [] => none
    | d :: rest =>
      let out := roll_resolve fuel s d
      let turn_climb2 := turn_climb + out.2.climb_distance
      let turn_slide2 := turn_slide + out.2.slide_distance
      let die_rolls2 := die_rolls ++ [out.2.die_value]
      if out.2.die_value < DIE_SIZE then
        some (out.1, rest, turn_climb2, turn_slide2, die_rolls2)
      else
        turnLoop fuel out.1 rest turn_climb2 turn_slide2 die_rolls2

/-- `Sim::turn`: count the turn, run the roll loop, then fold this turn's
totals into `biggest_climb`/`biggest_slide` and replace `longest_turn`
when this turn's die sequence is strictly greater. -/
def turn (fuel : Nat) (s : Sim) (dice : List Nat) : Option (Sim × List Nat) :=
  let s1 := { s with turn_count := s.turn_count + 1 }
  match turnLoop fuel s1 dice 0 0 [] with
  | none => none
  | some (s2, rest, turn_climb, turn_slide, die_rolls) =>
    some
      ({ s2 with
          biggest_climb := max s2.biggest_climb turn_climb
          biggest_slide := max s2.biggest_slide turn_slide
          longest_turn :=
            if vecLt s2.longest_turn die_rolls then die_rolls
            else s2.longest_turn },
        rest)

/-- `min_avg_max(sequence)`: `None` on an empty input, otherwise the
minimum, the arithmetic mean (the `f64` division modelled exactly in `ℚ`)
and the maximum. -/
def min_avg_max (sequence : List Nat) : Option (Nat × ℚ × Nat) :=
  match sequence with
  | [] => none
  | x :: xs =>
    some (xs.foldl Nat.min x,
      (((x :: xs).sum : ℚ)) / (((x :: xs).length : Nat) : ℚ),
      xs.foldl Nat.max x)

/-- A terminating route chain: `Chain b x hops z` holds when following
`b.routes` from `x` passes through exactly the squares in `hops` and ends
at `z`, a square with no outgoing route. -/
inductive Chain (b : Board) : Nat → List Nat → Nat → Prop
  | nil (x : Nat) : b.get x = none → Chain b x [] x
  | cons (x y : Nat) (l : List Nat) (z : Nat) :
      b.get x = some y → Chain b y l z → Chain b x (y :: l) z

/-- Number of ascending hops of a chain starting at the first argument. -/
def hopsClimbCount : Nat → List Nat → Nat
  | _, [] => 0
  | x, y :: l => (if x < y then 1 else 0) + hopsClimbCount y l

/-- Total length of the ascending hops of a chain. -/
def hopsClimbDist : Nat → List Nat → Nat
  | _, [] => 0
  | x, y :: l => (if x < y then y - x else 0) + hopsClimbDist y l

/-- Number of descending hops of a chain starting at the first argument. -/
def hopsSlideCount : Nat → List Nat → Nat
  | _, [] => 0
  | x, y :: l => (if x < y then 0 else 1) + hopsSlideCount y l

/-- Total length of the descending hops of a chain. -/
def hopsSlideDist : Nat → List Nat → Nat
  | _, [] => 0
  | x, y :: l => (if x < y then 0 else x - y) + hopsSlideDist y l

/-- An operation applied to a `Sim`: a single resolved roll or a turn
driven by a list of die values. -/
inductive Op where
  | rollOp (d : Nat)
  | turnOp (dice : List Nat)
deriving DecidableEq

/-- Apply one operation to a `Sim` (a panicking turn leaves the state). -/
def applyOp (fuel : Nat) (s : Sim) : Op → Sim
  | Op.rollOp d => (roll_resolve fuel s d).1
  | Op.turnOp dice =>
    match turn fuel s dice with
    | none => s
    | some (s2, _) => s2

/-- Apply a sequence of operations left to right. -/
def applyOps (fuel : Nat) (s : Sim) (ops : List Op) : Sim :=
  ops.foldl (applyOp fuel) s

/-- The die-source contract for an operation: a rolled value is at least
1 (`gen_range(1, DIE_SIZE + 1)`). -/
def opOk : Op → Bool
  | Op.rollOp d => decide (1 ≤ d)
  | Op.turnOp _ => true

end SnakesLadders

namespace SnakesLadders

/-- The tail of `roll_resolve`: bump `unlucky_rolls` when the landed
square is unlucky, else `lucky_rolls` when it is lucky. -/
def luckTick (s : Sim) (sq : Nat) : Sim :=
  if sq ∈ s.unlucky_spaces then { s with unlucky_rolls := s.unlucky_rolls + 1 }
  else if sq ∈ s.lucky_spaces then { s with lucky_rolls := s.lucky_rolls + 1 }
  else s

/-- A small concrete board: size 20 with the chained snakes 19 → 10 → 3. -/
def bEx : Board := { size := 20, routes := [(19, 10), (10, 3)] }

/-- A concrete mid-game state on `bEx` at square 13. -/
def sEx : Sim :=
  { board := bEx
    position := 13
    lucky_spaces := {5}
    unlucky_spaces := {14}
    turn_count := 0
    roll_count := 0
    climb_count := 0
    slide_count := 0
    climb_distance := 0
    slide_distance := 0
    biggest_climb := 0
    biggest_slide := 0
    longest_turn := []
    lucky_rolls := 0
    unlucky_rolls := 0 }

/-- A state on a board whose chain out of square 15 first climbs
(15 → 18) and then slides (18 → 4). -/
def sNet : Sim := { sEx with board := { size := 20, routes := [(15, 18), (18, 4)] } }

/-- The state `sEx` moved to the winning square. -/
def sWon : Sim := { sEx with position := 20 }

/-! ### Frame lemmas -/

/-- `follow_routes` touches only `position`, the climb counters and the
slide counters. -/
lemma follow_routes_frame : ∀ (fuel : Nat) (s : Sim),
    (follow_routes fuel s).board = s.board ∧
    (follow_routes fuel s).lucky_spaces = s.lucky_spaces ∧
    (follow_routes fuel s).unlucky_spaces = s.unlucky_spaces ∧
    (follow_routes fuel s).turn_count = s.turn_count ∧
    (follow_routes fuel s).roll_count = s.roll_count ∧
    (follow_routes fuel s).biggest_climb = s.biggest_climb ∧
    (follow_routes fuel s).biggest_slide = s.biggest_slide ∧
    (follow_routes fuel s).longest_turn = s.longest_turn ∧
    (follow_routes fuel s).lucky_rolls = s.lucky_rolls ∧
    (follow_routes fuel s).unlucky_rolls = s.unlucky_rolls := by
  intro fuel
  induction fuel with
  | zero => intro s; simp [follow_routes]
  | succ n ih =>
    intro s
    simp only [follow_routes]
    cases h : s.board.get s.position with
    | none => simp
    | some p =>
      by_cases hp : s.position < p
      · simpa [hp] using ih _
      · simpa [hp] using ih _

/-! ### Route chains -/

/-- Following a terminating chain with enough fuel lands on its fixed
point and counts every hop. -/
lemma follow_routes_chain : ∀ (hops : List Nat) (fuel : Nat) (s : Sim)
    (final : Nat), Chain s.board s.position hops final →
    hops.length ≤ fuel →
    follow_routes fuel s =
      { s with
        position := final
        climb_count := s.climb_count + hopsClimbCount s.position hops
        climb_distance := s.climb_distance + hopsClimbDist s.position hops
        slide_count := s.slide_count + hopsSlideCount s.position hops
        slide_distance := s.slide_distance + hopsSlideDist s.position hops } := by
  intro hops
  induction hops with
  | nil =>
    intro fuel s final hc hlen
    cases hc
    rename_i h
    cases fuel with
    | zero => simp [follow_routes, hopsClimbCount, hopsClimbDist,
        hopsSlideCount, hopsSlideDist]
    | succ n => simp [follow_routes, h, hopsClimbCount, hopsClimbDist,
        hopsSlideCount, hopsSlideDist]
  | cons y l ih =>
    intro fuel s final hc hlen
    cases hc
    rename_i h htail
    cases fuel with
    | zero => simp at hlen
    | succ n =>
      have hn : l.length ≤ n := by simp at hlen; omega
      simp only [follow_routes, h]
      by_cases hp : s.position < y
      · rw [if_pos hp, ih n _ final htail hn]
        simp [Sim.mk.injEq, hopsClimbCount, hopsClimbDist, hopsSlideCount,
          hopsSlideDist, hp, Nat.add_assoc]
      · rw [if_neg hp, ih n _ final htail hn]
        simp [Sim.mk.injEq, hopsClimbCount, hopsClimbDist, hopsSlideCount,
          hopsSlideDist, hp, Nat.add_assoc]

/-! ### Helper lemmas -/

lemma has_won_iff (s : Sim) : s.has_won = true ↔ s.position = s.board.size := by
  simp [Sim.has_won]

lemma vecLt_nil (l : List Nat) : vecLt l [] = false := by
  cases l <;> rfl

lemma roll_resolve_die (fuel : Nat) (s : Sim) (d : Nat) :
    (roll_resolve fuel s d).2.die_value = d := by
  rw [roll_resolve]
  split <;> rfl

lemma roll_resolve_overroll_eq (fuel : Nat) (s : Sim) (d : Nat)
    (h : s.board.size < s.position + d) :
    roll_resolve fuel s d =
      ({ s with roll_count := s.roll_count + 1 },
        { die_value := d, climb_distance := 0, slide_distance := 0 }) := by
  simp [roll_resolve, h]

lemma roll_resolve_won_eq (fuel : Nat) (s : Sim) (d : Nat) (hd : 1 ≤ d)
    (hw : s.has_won = true) :
    roll_resolve fuel s d =
      ({ s with roll_count := s.roll_count + 1 },
        { die_value := d, climb_distance := 0, slide_distance := 0 }) := by
  have hpos := (has_won_iff s).mp hw
  exact roll_resolve_overroll_eq fuel s d (by omega)

lemma turn_won_eq (fuel : Nat) (s : Sim) (dice : List Nat)
    (hw : s.has_won = true) :
    turn fuel s dice = some ({ s with turn_count := s.turn_count + 1 }, dice) := by
  have h1 : ({ s with turn_count := s.turn_count + 1 } : Sim).has_won = true := by
    simpa [Sim.has_won] using hw
  rw [turn, turnLoop.eq_def, if_pos h1]
  simp [vecLt_nil]

lemma applyOp_won (fuel : Nat) (s : Sim) (op : Op) (hok : opOk op = true)
    (hw : s.has_won = true) : (applyOp fuel s op).has_won = true := by
  cases op with
  | rollOp d =>
    have hd : 1 ≤ d := by simpa [opOk] using hok
    simp only [applyOp]
    rw [roll_resolve_won_eq fuel s d hd hw]
    simpa [Sim.has_won] using hw
  | turnOp dice =>
    simp only [applyOp]
    rw [turn_won_eq fuel s dice hw]
    simpa [Sim.has_won] using hw

lemma applyOps_won (fuel : Nat) : ∀ (ops : List Op) (s : Sim),
    (∀ op ∈ ops, opOk op = true) → s.has_won = true →
    (applyOps fuel s ops).has_won = true := by
  intro ops
  induction ops with
  | nil => intro s _ hw; simpa [applyOps] using hw
  | cons op rest ih =>
    intro s hok hw
    have h1 := applyOp_won fuel s op (hok op (by simp)) hw
    have h2 : ∀ o ∈ rest, opOk o = true := fun o ho => hok o (by simp [ho])
    simpa [applyOps] using ih (applyOp fuel s op) h2 h1

/-! ### Claim theorems -/

/-- Claim C3: an overroll (`position + die_value > board.size`) only
increments `roll_count` — position and every other counter are unchanged
and the returned result has zero climb and zero slide distance; in
particular rolling any `d ≥ 1` on an already-won `Sim` is such a no-op. -/
theorem roll_resolve_overroll_spec (fuel : Nat) (s : Sim) (d : Nat) :
    (s.board.size < s.position + d →
      roll_resolve fuel s d =
        ({ s with roll_count := s.roll_count + 1 },
          { die_value := d, climb_distance := 0, slide_distance := 0 })) ∧
    (s.position = s.board.size → 1 ≤ d →
      roll_resolve fuel s d =
        ({ s with roll_count := s.roll_count + 1 },
          { die_value := d, climb_distance := 0, slide_distance := 0 })) := by
  constructor
  · intro h
    exact roll_resolve_overroll_eq fuel s d h
  · intro hpos hd
    exact roll_resolve_overroll_eq fuel s d (by omega)

/-- Claim C6: `has_won()` is true exactly when `position = board.size`;
a roll with die value at least 1 on a won `Sim` only bumps `roll_count`,
a turn on a won `Sim` only bumps `turn_count`, and hence no sequence of
`roll_resolve`/`turn` operations (rolls drawing die values ≥ 1) ever
falsifies `has_won`: the Won state is absorbing. -/
theorem has_won_absorbing_spec (fuel : Nat) :
    (∀ s : Sim, s.has_won = true ↔ s.position = s.board.size) ∧
    (∀ (s : Sim) (d : Nat), 1 ≤ d → s.has_won = true →
      (roll_resolve fuel s d).1 = { s with roll_count := s.roll_count + 1 }) ∧
    (∀ (s : Sim) (dice : List Nat), s.has_won = true →
      turn fuel s dice = some ({ s with turn_count := s.turn_count + 1 }, dice)) ∧
    (∀ (s : Sim) (ops : List Op), (∀ op ∈ ops, opOk op = true) →
      s.has_won = true → (applyOps fuel s ops).has_won = true) :=
  ⟨has_won_iff,
   fun s d hd hw => by rw [roll_resolve_won_eq fuel s d hd hw],
   turn_won_eq fuel,
   fun s ops hok hw => applyOps_won fuel ops s hok hw⟩

/-- Witness for C6 at a concrete won state. -/
theorem has_won_absorbing_spec_witness :
    (sWon.has_won = true ↔ sWon.position = sWon.board.size) ∧
    (roll_resolve 5 sWon 3).1 = { sWon with roll_count := sWon.roll_count + 1 } ∧
    turn 5 sWon [2] = some ({ sWon with turn_count := sWon.turn_count + 1 }, [2]) ∧
    (applyOps 5 sWon [Op.rollOp 3, Op.turnOp [2]]).has_won = true :=
  ⟨(has_won_absorbing_spec 5).1 sWon,
   (has_won_absorbing_spec 5).2.1 sWon 3 (by decide) (by decide),
   (has_won_absorbing_spec 5).2.2.1 sWon [2] (by decide),
   (has_won_absorbing_spec 5).2.2.2 sWon [Op.rollOp 3, Op.turnOp [2]]
     (by decide) (by decide)⟩

/-- Claim C1: from a Playing state, the turn loop keeps rolling after a
roll exactly when the die showed `DIE_SIZE` and the game is still unwon
after resolving it; otherwise the turn ends with that roll. In particular
an overrolled `DIE_SIZE` (which moves nothing but `roll_count`) still
continues the turn. -/
theorem turn_extension_iff (fuel : Nat) (s : Sim) (d : Nat) (rest : List Nat)
    (tc ts : Nat) (dr : List Nat)
    (hplay : s.has_won = false) (hd : d ≤ DIE_SIZE) :
    (turnLoop fuel s (d :: rest) tc ts dr =
      if d = DIE_SIZE ∧ (roll_resolve fuel s d).1.has_won = false then
        turnLoop fuel (roll_resolve fuel s d).1 rest
          (tc + (roll_resolve fuel s d).2.climb_distance)
          (ts + (roll_resolve fuel s d).2.slide_distance) (dr ++ [d])
      else
        some ((roll_resolve fuel s d).1, rest,
          tc + (roll_resolve fuel s d).2.climb_distance,
          ts + (roll_resolve fuel s d).2.slide_distance, dr ++ [d])) ∧
    (d = DIE_SIZE → s.board.size < s.position + d →
      turnLoop fuel s (d :: rest) tc ts dr =
        turnLoop fuel { s with roll_count := s.roll_count + 1 } rest tc ts
          (dr ++ [d])) := by
  have hnw : ¬ (s.has_won = true) := by simp [hplay]
  have main : turnLoop fuel s (d :: rest) tc ts dr =
      if d = DIE_SIZE ∧ (roll_resolve fuel s d).1.has_won = false then
        turnLoop fuel (roll_resolve fuel s d).1 rest
          (tc + (roll_resolve fuel s d).2.climb_distance)
          (ts + (roll_resolve fuel s d).2.slide_distance) (dr ++ [d])
      else
        some ((roll_resolve fuel s d).1, rest,
          tc + (roll_resolve fuel s d).2.climb_distance,
          ts + (roll_resolve fuel s d).2.slide_distance, dr ++ [d]) := by
    rw [turnLoop.eq_def, if_neg hnw]
    simp only [roll_resolve_die]
    rcases Nat.lt_or_ge d DIE_SIZE with hlt | hge
    · rw [if_pos hlt,
        if_neg (fun hc => absurd hc.1 (Nat.ne_of_lt hlt))]
    · have heq : d = DIE_SIZE := Nat.le_antisymm hd hge
      have hnl : ¬ d < DIE_SIZE := by omega
      rw [if_neg hnl]
      by_cases hw : (roll_resolve fuel s d).1.has_won = false
      · rw [if_pos ⟨heq, hw⟩]
      · rw [if_neg (fun hc => hw hc.2)]
        have hwt : (roll_resolve fuel s d).1.has_won = true := by
          cases h : (roll_resolve fuel s d).1.has_won
          · exact absurd h hw
          · rfl
        rw [turnLoop.eq_def, if_pos hwt]
  refine ⟨main, ?_⟩
  intro heq hover
  rw [main, roll_resolve_overroll_eq fuel s d hover]
  have hw' : ({ s with roll_count := s.roll_count + 1 } : Sim).has_won = false := by
    simpa [Sim.has_won] using hplay
  simp [heq, hw']

/-- Witness for C1: from `sEx` (square 13 on `bEx`), a rolled 6 reaches
the chain 19 → 10 → 3, does not win, and the turn keeps rolling. -/
theorem turn_extension_iff_witness :
    turnLoop 5 sEx [6, 2] 0 0 [] =
      turnLoop 5 (roll_resolve 5 sEx 6).1 [2]
        (0 + (roll_resolve 5 sEx 6).2.climb_distance)
        (0 + (roll_resolve 5 sEx 6).2.slide_distance) ([] ++ [6]) := by
  have h := (turn_extension_iff 5 sEx 6 [2] 0 0 [] (by decide) (by decide)).1
  rw [h, if_pos ⟨rfl, by decide⟩]

lemma luckTick_frame (s : Sim) (sq : Nat) :
    (luckTick s sq).board = s.board ∧
    (luckTick s sq).position = s.position ∧
    (luckTick s sq).climb_count = s.climb_count ∧
    (luckTick s sq).climb_distance = s.climb_distance ∧
    (luckTick s sq).slide_count = s.slide_count ∧
    (luckTick s sq).slide_distance = s.slide_distance ∧
    (luckTick s sq).roll_count = s.roll_count := by
  unfold luckTick
  split
  · simp
  · split <;> simp

lemma roll_resolve_move_eq (fuel : Nat) (s : Sim) (d : Nat) (hops : List Nat)
    (final : Nat) (hchain : Chain s.board (s.position + d) hops final)
    (hfuel : hops.length ≤ fuel) (htarget : s.position + d ≤ s.board.size) :
    roll_resolve fuel s d =
      (luckTick
        { s with
          roll_count := s.roll_count + 1
          position := final
          climb_count := s.climb_count + hopsClimbCount (s.position + d) hops
          climb_distance := s.climb_distance + hopsClimbDist (s.position + d) hops
          slide_count := s.slide_count + hopsSlideCount (s.position + d) hops
          slide_distance := s.slide_distance + hopsSlideDist (s.position + d) hops }
        (s.position + d),
       { die_value := d
         climb_distance :=
           if s.position + d < final then final - (s.position + d) else 0
         slide_distance :=
           if s.position + d < final then 0 else (s.position + d) - final }) := by
  have hno : ¬ (s.board.size < s.position + d) := by omega
  simp only [roll_resolve]
  rw [if_neg hno]
  rw [follow_routes_chain hops fuel
    { s with roll_count := s.roll_count + 1, position := s.position + d }
    final hchain hfuel]
  by_cases hlt : s.position + d < final <;> simp [luckTick, hlt]

/-- The endpoint of a chain is the start plus the climbed distance minus
the slid distance. -/
lemma chain_net : ∀ (hops : List Nat) (b : Board) (x z : Nat),
    Chain b x hops z →
    (z : Int) = (x : Int) + hopsClimbDist x hops - hopsSlideDist x hops := by
  intro hops
  induction hops with
  | nil =>
    intro b x z hc
    cases hc
    simp [hopsClimbDist, hopsSlideDist]
  | cons y l ih =>
    intro b x z hc
    cases hc
    rename_i h htail
    have hz := ih b y z htail
    simp only [hopsClimbDist, hopsSlideDist]
    by_cases hp : x < y
    · rw [if_pos hp, if_pos hp]
      omega
    · rw [if_neg hp, if_neg hp]
      omega

/-- Claim C2: a moving roll (`target = position + die_value ≤ size`)
lands, in one resolved roll, on the fixed point of the route chain out of
the target, and every hop of the chain is counted: each ascending hop
adds 1 to `climb_count` and its length to `climb_distance`, each
descending hop adds 1 to `slide_count` and its length to
`slide_distance`. -/
theorem roll_resolve_chain_spec (fuel : Nat) (s : Sim) (d : Nat)
    (hops : List Nat) (final : Nat)
    (hchain : Chain s.board (s.position + d) hops final)
    (hfuel : hops.length ≤ fuel) (htarget : s.position + d ≤ s.board.size) :
    (roll_resolve fuel s d).1.position = final ∧
    (roll_resolve fuel s d).1.climb_count =
      s.climb_count + hopsClimbCount (s.position + d) hops ∧
    (roll_resolve fuel s d).1.climb_distance =
      s.climb_distance + hopsClimbDist (s.position + d) hops ∧
    (roll_resolve fuel s d).1.slide_count =
      s.slide_count + hopsSlideCount (s.position + d) hops ∧
    (roll_resolve fuel s d).1.slide_distance =
      s.slide_distance + hopsSlideDist (s.position + d) hops := by
  rw [roll_resolve_move_eq fuel s d hops final hchain hfuel htarget]
  obtain ⟨-, hpos, hcc, hcd, hsc, hsd, -⟩ := luckTick_frame
    { s with
      roll_count := s.roll_count + 1
      position := final
      climb_count := s.climb_count + hopsClimbCount (s.position + d) hops
      climb_distance := s.climb_distance + hopsClimbDist (s.position + d) hops
      slide_count := s.slide_count + hopsSlideCount (s.position + d) hops
      slide_distance := s.slide_distance + hopsSlideDist (s.position + d) hops }
    (s.position + d)
  exact ⟨by rw [hpos], by rw [hcc], by rw [hcd], by rw [hsc], by rw [hsd]⟩

/-- Witness for C2: from square 13 on `bEx`, a rolled 6 lands on 19 and
slides down the chain 19 → 10 → 3 in one roll, counting both hops. -/
theorem roll_resolve_chain_spec_witness :
    (roll_resolve 5 sEx 6).1.position = 3 ∧
    (roll_resolve 5 sEx 6).1.slide_count = 2 ∧
    (roll_resolve 5 sEx 6).1.slide_distance = 16 ∧
    (roll_resolve 5 sEx 6).1.climb_count = 0 := by
  have hchain : Chain sEx.board (sEx.position + 6) [10, 3] 3 :=
    Chain.cons _ _ _ _ rfl (Chain.cons _ _ _ _ rfl (Chain.nil _ rfl))
  have h := roll_resolve_chain_spec 5 sEx 6 [10, 3] 3 hchain (by decide) (by decide)
  refine ⟨h.1, ?_, ?_, ?_⟩
  · rw [h.2.2.2.1]; decide
  · rw [h.2.2.2.2]; decide
  · rw [h.2.1]; decide

/-- Claim C10: the `RollResult` of a moving roll carries only the NET
displacement of the chain relative to the original target (climb if the
chain ended higher, slide otherwise), which is strictly smaller than the
per-hop distances added to the counters whenever the chain contains both
an ascending and a descending hop. -/
theorem roll_result_net_spec (fuel : Nat) (s : Sim) (d : Nat)
    (hops : List Nat) (final : Nat)
    (hchain : Chain s.board (s.position + d) hops final)
    (hfuel : hops.length ≤ fuel) (htarget : s.position + d ≤ s.board.size) :
    ((roll_resolve fuel s d).2.climb_distance =
      if s.position + d < final then final - (s.position + d) else 0) ∧
    ((roll_resolve fuel s d).2.slide_distance =
      if s.position + d < final then 0 else (s.position + d) - final) ∧
    ((final : Int) = (s.position : Int) + (d : Int) +
      (hopsClimbDist (s.position + d) hops : Int) -
      (hopsSlideDist (s.position + d) hops : Int)) ∧
    (1 ≤ hopsClimbDist (s.position + d) hops →
      1 ≤ hopsSlideDist (s.position + d) hops →
      (roll_resolve fuel s d).2.climb_distance +
          (roll_resolve fuel s d).2.slide_distance <
        hopsClimbDist (s.position + d) hops +
          hopsSlideDist (s.position + d) hops) := by
  have hnet := chain_net hops s.board (s.position + d) final hchain
  rw [roll_resolve_move_eq fuel s d hops final hchain hfuel htarget]
  refine ⟨rfl, rfl, by push_cast at hnet ⊢; omega, ?_⟩
  intro hC hS
  by_cases hlt : s.position + d < final
  · simp only [if_pos hlt]
    omega
  · simp only [if_neg hlt]
    omega

/-- Witness for C10: on `sNet` a rolled 2 reaches 15, climbs 3 (15 → 18)
and slides 14 (18 → 4); the result reports only the net slide of 11,
strictly below the 17 booked on the per-hop counters. -/
theorem roll_result_net_spec_witness :
    (roll_resolve 5 sNet 2).2.climb_distance = 0 ∧
    (roll_resolve 5 sNet 2).2.slide_distance = 11 ∧
    (roll_resolve 5 sNet 2).2.climb_distance +
        (roll_resolve 5 sNet 2).2.slide_distance <
      hopsClimbDist 15 [18, 4] + hopsSlideDist 15 [18, 4] := by
  have hchain : Chain sNet.board (sNet.position + 2) [18, 4] 4 :=
    Chain.cons _ _ _ _ rfl (Chain.cons _ _ _ _ rfl (Chain.nil _ rfl))
  have h := roll_result_net_spec 5 sNet 2 [18, 4] 4 hchain (by decide) (by decide)
  refine ⟨?_, ?_, ?_⟩
  · rw [h.1]; decide
  · rw [h.2.1]; decide
  · exact h.2.2.2 (by decide) (by decide)

/-- Claim C4: a moving roll classifies luck on the ORIGINAL target
square `position + die_value` (not the post-chain position): it bumps
`unlucky_rolls` when the target is unlucky, otherwise bumps `lucky_rolls`
when the target is lucky, otherwise neither — so a square in both sets
scores as unlucky and at most one of the two counters changes. -/
theorem roll_resolve_luck_spec (fuel : Nat) (s : Sim) (d : Nat)
    (htarget : s.position + d ≤ s.board.size) :
    (roll_resolve fuel s d).1.unlucky_rolls =
      s.unlucky_rolls +
        (if s.position + d ∈ s.unlucky_spaces then 1 else 0) ∧
    (roll_resolve fuel s d).1.lucky_rolls =
      s.lucky_rolls +
        (if s.position + d ∉ s.unlucky_spaces ∧ s.position + d ∈ s.lucky_spaces
          then 1 else 0) ∧
    ((roll_resolve fuel s d).1.unlucky_rolls - s.unlucky_rolls) +
      ((roll_resolve fuel s d).1.lucky_rolls - s.lucky_rolls) ≤ 1 := by
  have hno : ¬ (s.board.size < s.position + d) := by omega
  have hfr := follow_routes_frame fuel
    { s with roll_count := s.roll_count + 1, position := s.position + d }
  have hl : (follow_routes fuel
      { s with roll_count := s.roll_count + 1, position := s.position + d
        }).lucky_spaces = s.lucky_spaces := by
    simpa using hfr.2.1
  have hu : (follow_routes fuel
      { s with roll_count := s.roll_count + 1, position := s.position + d
        }).unlucky_spaces = s.unlucky_spaces := by
    simpa using hfr.2.2.1
  have hlr : (follow_routes fuel
      { s with roll_count := s.roll_count + 1, position := s.position + d
        }).lucky_rolls = s.lucky_rolls := by
    simpa using hfr.2.2.2.2.2.2.2.2.1
  have hur : (follow_routes fuel
      { s with roll_count := s.roll_count + 1, position := s.position + d
        }).unlucky_rolls = s.unlucky_rolls := by
    simpa using hfr.2.2.2.2.2.2.2.2.2
  simp only [roll_resolve]
  rw [if_neg hno]
  simp only [hl, hu]
  by_cases h1 : s.position + d ∈ s.unlucky_spaces
  · simp [h1, hur, hlr]
  · by_cases h2 : s.position + d ∈ s.lucky_spaces
    · simp [h1, h2, hur, hlr]
    · simp [h1, h2, hur, hlr]

/-- Witness for C4: from `sEx` a rolled 1 lands on 14, which is in the
unlucky set, so only `unlucky_rolls` moves. -/
theorem roll_resolve_luck_spec_witness :
    (roll_resolve 5 sEx 1).1.unlucky_rolls = sEx.unlucky_rolls + 1 ∧
    (roll_resolve 5 sEx 1).1.lucky_rolls = sEx.lucky_rolls := by
  have h := roll_resolve_luck_spec 5 sEx 1 (by decide)
  refine ⟨?_, ?_⟩
  · rw [h.1]; decide
  · rw [h.2.1]; decide

lemma luckyStep_mem (b : Board) (acc : Finset Nat × Finset Nat) (i x : Nat) :
    (x ∈ (luckyStep b acc i).1 ↔
      x ∈ acc.1 ∨ (x = i ∧ (i < routeOr b i ∨ nearMiss b i = true))) ∧
    (x ∈ (luckyStep b acc i).2 ↔
      x ∈ acc.2 ∨ (x = i ∧ routeOr b i < i)) := by
  unfold luckyStep
  by_cases hnm : nearMiss b i = true
  · by_cases hg : i < routeOr b i
    · simp [hg, hnm, Finset.mem_insert, Nat.lt_asymm hg]
      tauto
    · by_cases hl : routeOr b i < i
      · simp [hg, hl, hnm, Finset.mem_insert]
        tauto
      · simp [hg, hl, hnm, Finset.mem_insert]
        tauto
  · by_cases hg : i < routeOr b i
    · simp [hg, hnm, Finset.mem_insert, Nat.lt_asymm hg]
      tauto
    · by_cases hl : routeOr b i < i
      · simp [hg, hl, hnm, Finset.mem_insert]
        tauto
      · simp [hg, hl, hnm, Finset.mem_insert]

lemma luckyFold_mem (b : Board) : ∀ (n : Nat) (acc : Finset Nat × Finset Nat)
    (x : Nat),
    (x ∈ ((List.range n).foldl (luckyStep b) acc).1 ↔
      x ∈ acc.1 ∨ (x < n ∧ (x < routeOr b x ∨ nearMiss b x = true))) ∧
    (x ∈ ((List.range n).foldl (luckyStep b) acc).2 ↔
      x ∈ acc.2 ∨ (x < n ∧ routeOr b x < x)) := by
  intro n
  induction n with
  | zero => intro acc x; simp
  | succ m ih =>
    intro acc x
    rw [List.range_succ, List.foldl_append]
    simp only [List.foldl_cons, List.foldl_nil]
    obtain ⟨hL, hU⟩ := luckyStep_mem b ((List.range m).foldl (luckyStep b) acc) m x
    obtain ⟨iL, iU⟩ := ih acc x
    constructor
    · rw [hL, iL]
      constructor
      · rintro ((h | ⟨h1, h2⟩) | ⟨rfl, h⟩)
        · exact Or.inl h
        · exact Or.inr ⟨Nat.lt_succ_of_lt h1, h2⟩
        · exact Or.inr ⟨Nat.lt_succ_of_le (Nat.le_refl x), h⟩
      · rintro (h | ⟨h1, h2⟩)
        · exact Or.inl (Or.inl h)
        · rcases Nat.lt_succ_iff_lt_or_eq.mp h1 with h1 | rfl
          · exact Or.inl (Or.inr ⟨h1, h2⟩)
          · exact Or.inr ⟨rfl, h2⟩
    · rw [hU, iU]
      constructor
      · rintro ((h | ⟨h1, h2⟩) | ⟨rfl, h⟩)
        · exact Or.inl h
        · exact Or.inr ⟨Nat.lt_succ_of_lt h1, h2⟩
        · exact Or.inr ⟨Nat.lt_succ_of_le (Nat.le_refl x), h⟩
      · rintro (h | ⟨h1, h2⟩)
        · exact Or.inl (Or.inl h)
        · rcases Nat.lt_succ_iff_lt_or_eq.mp h1 with h1 | rfl
          · exact Or.inl (Or.inr ⟨h1, h2⟩)
          · exact Or.inr ⟨rfl, h2⟩

/-- Claim C5: `calc_lucky_spaces` returns exactly: unlucky = the squares
below `size` whose own route leads strictly lower; lucky = the squares
below `size` whose own route leads strictly higher or with a strictly
descending route out of a neighbour at offset ±1/±2 (offsets at or below
0 ignored), plus the winning square `size` itself. -/
theorem calc_lucky_spaces_spec (b : Board) (x : Nat) :
    (x ∈ (calc_lucky_spaces b).2 ↔ x < b.size ∧ routeOr b x < x) ∧
    (x ∈ (calc_lucky_spaces b).1 ↔
      x = b.size ∨
        (x < b.size ∧ (x < routeOr b x ∨ nearMiss b x = true))) := by
  obtain ⟨hL, hU⟩ := luckyFold_mem b b.size (∅, ∅) x
  constructor
  · simpa [calc_lucky_spaces] using hU
  · have hmem : x ∈ (calc_lucky_spaces b).1 ↔
        x = b.size ∨ x ∈ ((List.range b.size).foldl (luckyStep b) (∅, ∅)).1 := by
      simp [calc_lucky_spaces, Finset.mem_insert]
    rw [hmem, hL]
    simp

lemma luckTick_frame2 (s : Sim) (sq : Nat) :
    (luckTick s sq).board = s.board ∧
    (luckTick s sq).lucky_spaces = s.lucky_spaces ∧
    (luckTick s sq).unlucky_spaces = s.unlucky_spaces ∧
    (luckTick s sq).turn_count = s.turn_count ∧
    (luckTick s sq).biggest_climb = s.biggest_climb ∧
    (luckTick s sq).biggest_slide = s.biggest_slide ∧
    (luckTick s sq).longest_turn = s.longest_turn := by
  unfold luckTick
  split
  · simp
  · split <;> simp

lemma roll_resolve_move_shape (fuel : Nat) (s : Sim) (d : Nat)
    (h : ¬ s.board.size < s.position + d) :
    (roll_resolve fuel s d).1 =
      luckTick (follow_routes fuel
        { s with roll_count := s.roll_count + 1, position := s.position + d })
        (s.position + d) := by
  simp only [roll_resolve, luckTick]
  rw [if_neg h]

lemma roll_resolve_frame (fuel : Nat) (s : Sim) (d : Nat) :
    (roll_resolve fuel s d).1.board = s.board ∧
    (roll_resolve fuel s d).1.lucky_spaces = s.lucky_spaces ∧
    (roll_resolve fuel s d).1.unlucky_spaces = s.unlucky_spaces ∧
    (roll_resolve fuel s d).1.turn_count = s.turn_count ∧
    (roll_resolve fuel s d).1.biggest_climb = s.biggest_climb ∧
    (roll_resolve fuel s d).1.biggest_slide = s.biggest_slide ∧
    (roll_resolve fuel s d).1.longest_turn = s.longest_turn := by
  by_cases ho : s.board.size < s.position + d
  · rw [roll_resolve_overroll_eq fuel s d ho]
    exact ⟨rfl, rfl, rfl, rfl, rfl, rfl, rfl⟩
  · rw [roll_resolve_move_shape fuel s d ho]
    obtain ⟨f1, f2, f3, f4, -, f6, f7, f8, -, -⟩ := follow_routes_frame fuel
      { s with roll_count := s.roll_count + 1, position := s.position + d }
    obtain ⟨g1, g2, g3, g4, g5, g6, g7⟩ := luckTick_frame2
      (follow_routes fuel
        { s with roll_count := s.roll_count + 1, position := s.position + d })
      (s.position + d)
    exact ⟨g1.trans (by simpa using f1), g2.trans (by simpa using f2),
      g3.trans (by simpa using f3), g4.trans (by simpa using f4),
      g5.trans (by simpa using f6), g6.trans (by simpa using f7),
      g7.trans (by simpa using f8)⟩

lemma turnLoop_nil (fuel : Nat) (s : Sim) (tc ts : Nat) (dr : List Nat)
    (h : ¬ s.has_won = true) :
    turnLoop fuel s [] tc ts dr = none := by
  rw [turnLoop.eq_def, if_neg h]

lemma turnLoop_cons (fuel : Nat) (s : Sim) (d : Nat) (rest : List Nat)
    (tc ts : Nat) (dr : List Nat) (h : ¬ s.has_won = true) :
    turnLoop fuel s (d :: rest) tc ts dr =
      if (roll_resolve fuel s d).2.die_value < DIE_SIZE then
        some ((roll_resolve fuel s d).1, rest,
          tc + (roll_resolve fuel s d).2.climb_distance,
          ts + (roll_resolve fuel s d).2.slide_distance,
          dr ++ [(roll_resolve fuel s d).2.die_value])
      else
        turnLoop fuel (roll_resolve fuel s d).1 rest
          (tc + (roll_resolve fuel s d).2.climb_distance)
          (ts + (roll_resolve fuel s d).2.slide_distance)
          (dr ++ [(roll_resolve fuel s d).2.die_value]) := by
  rw [turnLoop.eq_def, if_neg h]

lemma turnLoop_frame (fuel : Nat) : ∀ (dice : List Nat) (s : Sim)
    (tc ts : Nat) (dr : List Nat) (s1 : Sim) (rest : List Nat)
    (tc1 ts1 : Nat) (dr1 : List Nat),
    turnLoop fuel s dice tc ts dr = some (s1, rest, tc1, ts1, dr1) →
    s1.longest_turn = s.longest_turn ∧ s1.turn_count = s.turn_count ∧
    s1.biggest_climb = s.biggest_climb ∧ s1.biggest_slide = s.biggest_slide := by
  intro dice
  induction dice with
  | nil =>
    intro s tc ts dr s1 rest tc1 ts1 dr1 h
    by_cases hw : s.has_won = true
    · rw [turnLoop.eq_def, if_pos hw] at h
      cases h
      exact ⟨rfl, rfl, rfl, rfl⟩
    · rw [turnLoop_nil fuel s tc ts dr hw] at h
      cases h
  | cons d rest0 ih =>
    intro s tc ts dr s1 rest tc1 ts1 dr1 h
    by_cases hw : s.has_won = true
    · rw [turnLoop.eq_def, if_pos hw] at h
      cases h
      exact ⟨rfl, rfl, rfl, rfl⟩
    · rw [turnLoop_cons fuel s d rest0 tc ts dr hw] at h
      obtain ⟨r1, -, -, -, r5, r6, r7⟩ := roll_resolve_frame fuel s d
      by_cases hlt : (roll_resolve fuel s d).2.die_value < DIE_SIZE
      · rw [if_pos hlt] at h
        cases h
        exact ⟨r7, by simpa using (roll_resolve_frame fuel s d).2.2.2.1, r5, r6⟩
      · rw [if_neg hlt] at h
        obtain ⟨p1, p2, p3, p4⟩ := ih (roll_resolve fuel s d).1 _ _ _ _ _ _ _ _ h
        exact ⟨p1.trans r7,
          p2.trans ((roll_resolve_frame fuel s d).2.2.2.1),
          p3.trans r5, p4.trans r6⟩

/-- Claim C7: die-roll sequences are ordered lexicographically with a
longer sequence beating its own proper prefix (`[6,5] < [6,6,2] <
[6,6,3]`), the turn loop never touches `longest_turn`, and at the end of
`turn()` the stored `longest_turn` is replaced by this turn's die
sequence exactly when that sequence is strictly greater. -/
theorem longest_turn_update_spec (fuel : Nat) (s s1 : Sim)
    (dice rest : List Nat) (tc ts : Nat) (dr : List Nat)
    (h : turnLoop fuel { s with turn_count := s.turn_count + 1 } dice 0 0 [] =
      some (s1, rest, tc, ts, dr)) :
    (vecLt [6, 5] [6, 6, 2] = true ∧ vecLt [6, 6, 2] [6, 6, 3] = true) ∧
    (∀ (l t1 : List Nat), t1 ≠ [] → vecLt l (l ++ t1) = true) ∧
    s1.longest_turn = s.longest_turn ∧
    turn fuel s dice =
      some ({ s1 with
          biggest_climb := max s1.biggest_climb tc
          biggest_slide := max s1.biggest_slide ts
          longest_turn :=
            if vecLt s.longest_turn dr then dr else s.longest_turn }, rest) := by
  have hpres := turnLoop_frame fuel dice
    { s with turn_count := s.turn_count + 1 } 0 0 [] s1 rest tc ts dr h
  have hlt : s1.longest_turn = s.longest_turn := by simpa using hpres.1
  refine ⟨⟨rfl, rfl⟩, ?_, hlt, ?_⟩
  · intro l t1 ht
    induction l with
    | nil =>
      cases t1 with
      | nil => exact absurd rfl ht
      | cons a t2 => rfl
    | cons a l ihl =>
      simpa [vecLt, Nat.lt_irrefl] using ihl
  · rw [turn, h]
    simp [hlt]

/-- Witness for C7 on a won state: the loop rolls nothing, `dr = []` is
not greater than the stored sequence, and `longest_turn` is kept. -/
theorem longest_turn_update_spec_witness :
    vecLt [6, 5] [6, 6, 2] = true ∧
    vecLt [3] ([3] ++ [4]) = true ∧
    turn 5 sWon [2] =
      some ({ { sWon with turn_count := sWon.turn_count + 1 } with
          biggest_climb :=
            max ({ sWon with turn_count := sWon.turn_count + 1 } : Sim).biggest_climb 0
          biggest_slide :=
            max ({ sWon with turn_count := sWon.turn_count + 1 } : Sim).biggest_slide 0
          longest_turn :=
            if vecLt sWon.longest_turn [] then []
            else sWon.longest_turn }, [2]) := by
  have h := longest_turn_update_spec 5 sWon
    { sWon with turn_count := sWon.turn_count + 1 } [2] [2] 0 0 [] (by decide)
  exact ⟨h.1.1, h.2.1 [3] [4] (by decide), h.2.2.2⟩

lemma checkRoutes_none_iff (size : Nat) : ∀ (routes : List (Nat × Nat)),
    checkRoutes size routes = none ↔
      ∀ p ∈ routes, (p.1 ≠ 0 ∧ p.1 < size) ∧ p.2 ≤ size ∧ p.1 ≠ p.2 := by
  intro routes
  induction routes with
  | nil => simp [checkRoutes]
  | cons pr rest ih =>
    obtain ⟨f, t⟩ := pr
    by_cases h1 : f = 0 ∨ size ≤ f
    · simp only [checkRoutes, if_pos h1]
      constructor
      · intro hcontra
        exact absurd hcontra (by simp)
      · intro hall
        exfalso
        have hft := hall (f, t) (by simp)
        rcases h1 with h1 | h1
        · exact hft.1.1 h1
        · omega
    · by_cases h2 : size < t
      · simp only [checkRoutes, if_neg h1, if_pos h2]
        constructor
        · intro hcontra
          exact absurd hcontra (by simp)
        · intro hall
          have hft := hall (f, t) (by simp)
          omega
      · by_cases h3 : f = t
        · simp only [checkRoutes, if_neg h1, if_neg h2, if_pos h3]
          constructor
          · intro hcontra
            exact absurd hcontra (by simp)
          · intro hall
            have hft := hall (f, t) (by simp)
            exact absurd h3 hft.2.2
        · simp only [checkRoutes, if_neg h1, if_neg h2, if_neg h3]
          rw [ih]
          push_neg at h1
          constructor
          · intro hall p hp
            rcases List.mem_cons.mp hp with hp | hp
            · subst hp
              exact ⟨⟨h1.1, by omega⟩, by omega, h3⟩
            · exact hall p hp
          · intro hall p hp
            exact hall p (List.mem_cons_of_mem _ hp)

lemma checkRoutes_some (size : Nat) : ∀ (routes : List (Nat × Nat))
    (e : BadRouteError), checkRoutes size routes = some e →
    ∃ f t, (f, t) ∈ routes ∧
      (((f = 0 ∨ size ≤ f) ∧ e = BadRouteError.BadRoute (badStartMsg f)) ∨
       (size < t ∧ e = BadRouteError.BadRoute (badEndMsg t)) ∨
       (f = t ∧ e = BadRouteError.BadRoute (badSelfMsg f))) := by
  intro routes
  induction routes with
  | nil => intro e h; simp [checkRoutes] at h
  | cons pr rest ih =>
    obtain ⟨f, t⟩ := pr
    intro e h
    simp only [checkRoutes] at h
    by_cases h1 : f = 0 ∨ size ≤ f
    · rw [if_pos h1] at h
      cases h
      exact ⟨f, t, by simp, Or.inl ⟨h1, rfl⟩⟩
    · rw [if_neg h1] at h
      by_cases h2 : size < t
      · rw [if_pos h2] at h
        cases h
        exact ⟨f, t, by simp, Or.inr (Or.inl ⟨h2, rfl⟩)⟩
      · rw [if_neg h2] at h
        by_cases h3 : f = t
        · rw [if_pos h3] at h
          cases h
          exact ⟨f, t, by simp, Or.inr (Or.inr ⟨h3, rfl⟩)⟩
        · rw [if_neg h3] at h
          obtain ⟨f', t', hmem, hcase⟩ := ih e h
          exact ⟨f', t', List.mem_cons_of_mem _ hmem, hcase⟩

/-- Claim C8: `Board::new` succeeds (with the board unchanged) exactly
when every route `(from, to)` has `1 ≤ from ≤ size - 1`, `to ≤ size` and
`from ≠ to` (chained routes and shared targets are fine); otherwise it
fails with a message naming the offending square and the defect kind. -/
theorem board_new_spec (size : Nat) (routes : List (Nat × Nat)) :
    (Board.new size routes = Except.ok { size := size, routes := routes } ↔
      ∀ p ∈ routes, (p.1 ≠ 0 ∧ p.1 < size) ∧ p.2 ≤ size ∧ p.1 ≠ p.2) ∧
    ((¬ ∀ p ∈ routes, (p.1 ≠ 0 ∧ p.1 < size) ∧ p.2 ≤ size ∧ p.1 ≠ p.2) →
      ∃ e, Board.new size routes = Except.error e) ∧
    (∀ e, Board.new size routes = Except.error e →
      ∃ f t, (f, t) ∈ routes ∧
        (((f = 0 ∨ size ≤ f) ∧ e = BadRouteError.BadRoute (badStartMsg f)) ∨
         (size < t ∧ e = BadRouteError.BadRoute (badEndMsg t)) ∨
         (f = t ∧ e = BadRouteError.BadRoute (badSelfMsg f)))) := by
  refine ⟨?_, ?_, ?_⟩
  · rw [← checkRoutes_none_iff size routes]
    unfold Board.new
    cases h : checkRoutes size routes <;> simp [h]
  · intro hnv
    rw [← checkRoutes_none_iff size routes] at hnv
    unfold Board.new
    cases h : checkRoutes size routes with
    | none => exact absurd h hnv
    | some e' => exact ⟨e', rfl⟩
  · intro e he
    unfold Board.new at he
    cases h : checkRoutes size routes with
    | none => rw [h] at he; simp at he
    | some e' =>
      rw [h] at he
      simp only [Except.error.injEq] at he
      subst he
      exact checkRoutes_some size routes e' h

/-- Witness for C8: a chained route set is accepted; a route starting at
square 0 is rejected with the illegal-start message naming square 0. -/
theorem board_new_spec_witness :
    Board.new 10 [(1, 2), (2, 3), (5, 3)] =
      Except.ok { size := 10, routes := [(1, 2), (2, 3), (5, 3)] } ∧
    (∃ f t, (f, t) ∈ ([(0, 3)] : List (Nat × Nat)) ∧
      (((f = 0 ∨ 5 ≤ f) ∧
          BadRouteError.BadRoute (badStartMsg 0) =
            BadRouteError.BadRoute (badStartMsg f)) ∨
       ((5 : Nat) < t ∧
          BadRouteError.BadRoute (badStartMsg 0) =
            BadRouteError.BadRoute (badEndMsg t)) ∨
       (f = t ∧
          BadRouteError.BadRoute (badStartMsg 0) =
            BadRouteError.BadRoute (badSelfMsg f)))) :=
  ⟨(board_new_spec 10 [(1, 2), (2, 3), (5, 3)]).1.mpr (by decide),
   (board_new_spec 5 [(0, 3)]).2.2 (BadRouteError.BadRoute (badStartMsg 0)) rfl⟩

lemma foldl_min_le : ∀ (xs : List Nat) (x : Nat),
    xs.foldl Nat.min x ≤ x ∧ ∀ y ∈ xs, xs.foldl Nat.min x ≤ y := by
  intro xs
  induction xs with
  | nil => intro x; simp
  | cons a l ih =>
    intro x
    simp only [List.foldl_cons]
    obtain ⟨h1, h2⟩ := ih (Nat.min x a)
    refine ⟨le_trans h1 (Nat.min_le_left x a), ?_⟩
    intro y hy
    rcases List.mem_cons.mp hy with rfl | hy
    · exact le_trans h1 (Nat.min_le_right x y)
    · exact h2 y hy

lemma foldl_min_mem : ∀ (xs : List Nat) (x : Nat),
    xs.foldl Nat.min x = x ∨ xs.foldl Nat.min x ∈ xs := by
  intro xs
  induction xs with
  | nil => intro x; simp
  | cons a l ih =>
    intro x
    simp only [List.foldl_cons]
    rcases ih (Nat.min x a) with h | h
    · rw [h]
      rcases Nat.le_total x a with hle | hle
      · left
        exact Nat.min_eq_left hle
      · right
        simp [Nat.min_eq_right hle]
    · right
      simp [h]

lemma foldl_max_ge : ∀ (xs : List Nat) (x : Nat),
    x ≤ xs.foldl Nat.max x ∧ ∀ y ∈ xs, y ≤ xs.foldl Nat.max x := by
  intro xs
  induction xs with
  | nil => intro x; simp
  | cons a l ih =>
    intro x
    simp only [List.foldl_cons]
    obtain ⟨h1, h2⟩ := ih (Nat.max x a)
    refine ⟨le_trans (Nat.le_max_left x a) h1, ?_⟩
    intro y hy
    rcases List.mem_cons.mp hy with rfl | hy
    · exact le_trans (Nat.le_max_right x y) h1
    · exact h2 y hy

lemma foldl_max_mem : ∀ (xs : List Nat) (x : Nat),
    xs.foldl Nat.max x = x ∨ xs.foldl Nat.max x ∈ xs := by
  intro xs
  induction xs with
  | nil => intro x; simp
  | cons a l ih =>
    intro x
    simp only [List.foldl_cons]
    rcases ih (Nat.max x a) with h | h
    · rw [h]
      rcases Nat.le_total x a with hle | hle
      · right
        simp [Nat.max_eq_right hle]
      · left
        exact Nat.max_eq_left hle
    · right
      simp [h]

/-- Claim C9: `min_avg_max` returns `none` ("no data", distinct from a
zero statistic) on the empty sequence, and on any non-empty sequence
returns the minimum, the exact arithmetic mean (sum over length) and the
maximum. -/
theorem min_avg_max_spec :
    min_avg_max [] = none ∧
    ∀ (l : List Nat), l ≠ [] →
      ∃ m a M, min_avg_max l = some (m, a, M) ∧
        m ∈ l ∧ M ∈ l ∧ (∀ y ∈ l, m ≤ y ∧ y ≤ M) ∧
        a = (l.sum : ℚ) / (l.length : ℚ) := by
  refine ⟨rfl, ?_⟩
  intro l hl
  match l with
  | [] => exact absurd rfl hl
  | x :: xs =>
    refine ⟨xs.foldl Nat.min x, _, xs.foldl Nat.max x, rfl, ?_, ?_, ?_, rfl⟩
    · rcases foldl_min_mem xs x with h | h
      · rw [h]
        exact List.mem_cons_self x xs
      · exact List.mem_cons_of_mem x h
    · rcases foldl_max_mem xs x with h | h
      · rw [h]
        exact List.mem_cons_self x xs
      · exact List.mem_cons_of_mem x h
    · intro y hy
      obtain ⟨hm1, hm2⟩ := foldl_min_le xs x
      obtain ⟨hM1, hM2⟩ := foldl_max_ge xs x
      rcases List.mem_cons.mp hy with rfl | hy
      · exact ⟨hm1, hM1⟩
      · exact ⟨hm2 y hy, hM2 y hy⟩

/-- Witness for C9 on the sequence `[8, 0, 3]`. -/
theorem min_avg_max_spec_witness :
    min_avg_max [] = none ∧
    (∃ m a M, min_avg_max [8, 0, 3] = some (m, a, M) ∧
      m ∈ [8, 0, 3] ∧ M ∈ [8, 0, 3] ∧
      (∀ y ∈ ([8, 0, 3] : List Nat), m ≤ y ∧ y ≤ M) ∧
      a = (([8, 0, 3] : List Nat).sum : ℚ) /
        (([8, 0, 3] : List Nat).length : ℚ)) :=
  ⟨min_avg_max_spec.1, min_avg_max_spec.2 [8, 0, 3] (by decide)⟩

/-- Witness for C3: an overroll from square 13 on the size-20 board, and
a post-victory roll, both leave everything but `roll_count` unchanged. -/
theorem roll_resolve_overroll_spec_witness :
    roll_resolve 5 sEx 30 =
      ({ sEx with roll_count := sEx.roll_count + 1 },
        { die_value := 30, climb_distance := 0, slide_distance := 0 }) ∧
    roll_resolve 5 sWon 1 =
      ({ sWon with roll_count := sWon.roll_count + 1 },
        { die_value := 1, climb_distance := 0, slide_distance := 0 }) :=
  ⟨(roll_resolve_overroll_spec 5 sEx 30).1 (by decide),
   (roll_resolve_overroll_spec 5 sWon 1).2 (by decide) (by decide)⟩
